import Mathlib

/-!
Shallow embedding of `vite-plugin-inline-non-module-scripts` (src/index.ts).

The plugin scans an HTML document with two cached JavaScript regular
expressions for non-module script tags (external-file and inline), reads or
registers their content, and in `writeBundle` rewrites `dist/index.html`,
replacing each original tag text with an inline script tag.

JavaScript regular expressions are embedded by a small executable backtracking
matcher over `List Char`; the two discovery regexes and the four attribute
extraction regexes of `writeBundle` are transcribed node by node from the
literals in the source.  The JavaScript regex semantics the source relies on
and the matcher reproduces: leftmost match, greedy/lazy quantifier
backtracking, negative lookahead, the `i` flag (ASCII case folding), `exec`
looping on a `g` regex via `lastIndex`, and `String.prototype.replace`
replacing only the first occurrence and expanding `$$` / `$&` / `$\x60` / `$'`
in string replacements.  (Unicode whitespace beyond the ASCII escapes and
`..`-segment path normalisation are not modelled; no input below needs them.)

The file system is an association list (`FS`); a fallible read is a lookup
returning `Option`, where `none` corresponds to a thrown exception (caught or
not exactly where the source has a `try`/`catch`).
-/

namespace InlineNonModuleScripts

/-- The JavaScript `\s` character class, restricted to its ASCII members
(space, tab, line feed, vertical tab, form feed, carriage return).  The
Unicode members are irrelevant to every input considered here. -/
def wsChars : List Char := [' ', '\t', '\n', Char.ofNat 11, Char.ofNat 12, '\r']

/-- The character class `["']`. -/
def quoteChars : List Char := ['"', '\'']

/-- Regular expression abstract syntax, covering exactly the constructs used by
the six regex literals in `src/index.ts`. -/
inductive RE where
  /-- empty pattern -/
  | eps
  /-- a literal character -/
  | chr (c : Char)
  /-- a character class `[...]` (`neg = false`) or `[^...]` (`neg = true`);
      `[\s\S]` is `cls true []` -/
  | cls (neg : Bool) (cs : List Char)
  /-- concatenation -/
  | seq (a b : RE)
  /-- `*` quantifier, greedy (`lazyQ = false`) or lazy (`lazyQ = true`) -/
  | star (r : RE) (lazyQ : Bool)
  /-- capture group `( ... )` (the source regexes have at most one) -/
  | group (r : RE)
  /-- negative lookahead `(?! ... )` -/
  | negLook (r : RE)
  /-- the `$` end anchor -/
  | eol
  deriving Repr, DecidableEq

/-- Character comparison, case-insensitive when the regex carries the `i`
flag. -/
def charEq (ci : Bool) (a b : Char) : Bool :=
  if ci then a.toLower == b.toLower else a == b

/-- Does character `a` satisfy the class `[cs]` / `[^cs]`? -/
def clsMatch (ci : Bool) (neg : Bool) (cs : List Char) (a : Char) : Bool :=
  let inSet := cs.any (fun c => charEq ci a c)
  if neg then !inSet else inSet

/-- A matcher continuation: receives the remaining input and the current
capture of group 1 and decides whether the overall match succeeds, returning
the final remaining input and capture. -/
abbrev MCont := List Char → Option (List Char) → Option (List Char × Option (List Char))

/-- Backtracking regex matcher in continuation-passing style.  `fuel` bounds
the recursion (chosen large enough at every call site); `ci` is the `i` flag.
Greedy stars try the longer match first, lazy stars the shorter; a quantifier
body that consumes nothing is not repeated (as in JavaScript). -/
def mrun (ci : Bool) : Nat → RE → List Char → Option (List Char) → MCont →
    Option (List Char × Option (List Char))
  | 0, _, _, _, _ => none
  | fuel + 1, re, s, cap, k =>
    match re with
    | .eps => k s cap
    | .eol => if s.isEmpty then k s cap else none
    | .chr c =>
      match s with
      | [] => none
      | a :: rest => if charEq ci a c then k rest cap else none
    | .cls neg cs =>
      match s with
      | [] => none
      | a :: rest => if clsMatch ci neg cs a then k rest cap else none
    | .seq a b => mrun ci fuel a s cap (fun s' cap' => mrun ci fuel b s' cap' k)
    | .star r lzy =>
      if lzy then
        match k s cap with
        | some res => some res
        | none =>
          mrun ci fuel r s cap (fun s' cap' =>
            if s'.length < s.length then mrun ci fuel (.star r lzy) s' cap' k else none)
      else
        match mrun ci fuel r s cap (fun s' cap' =>
            if s'.length < s.length then mrun ci fuel (.star r lzy) s' cap' k else none) with
        | some res => some res
        | none => k s cap
    | .group r =>
      mrun ci fuel r s cap (fun s' _ =>
        k s' (some (s.take (s.length - s'.length))))
    | .negLook r =>
      match mrun ci fuel r s cap (fun s' cap' => some (s', cap')) with
      | some _ => none
      | none => k s cap

/-- Concatenation of a list of patterns. -/
def reCat (l : List RE) : RE := l.foldr RE.seq RE.eps

/-- A literal string pattern. -/
def reLit (s : String) : RE := reCat (s.data.map RE.chr)

/-- Greedy `r*`. -/
def reStar (r : RE) : RE := RE.star r false

/-- Lazy `r*?`. -/
def reStarL (r : RE) : RE := RE.star r true

/-- Greedy `r+`, encoded as `r r*`. -/
def rePlus (r : RE) : RE := RE.seq r (RE.star r false)

/-- `\s` -/
def reWs : RE := RE.cls false wsChars

/-- `["']` -/
def reQuote : RE := RE.cls false quoteChars

/-- `[^"']` -/
def reNotQuote : RE := RE.cls true quoteChars

/-- `[^>]` -/
def reNotGt : RE := RE.cls true ['>']

/-- `[\s\S]` -/
def reAny : RE := RE.cls true []

/-- `SCRIPT_WITH_SRC_REGEX` (flags `gi`), transcribed from
`/<script(?![^>]*type\s*=\s*["']module["'])[^>]*\ssrc\s*=\s*["']([^"']+)["'][^>]*><\/script>/gi`. -/
def scriptWithSrcRE : RE := reCat [
  reLit "<script",
  RE.negLook (reCat [reStar reNotGt, reLit "type", reStar reWs, RE.chr '=',
    reStar reWs, reQuote, reLit "module", reQuote]),
  reStar reNotGt,
  reWs,
  reLit "src", reStar reWs, RE.chr '=', reStar reWs,
  reQuote, RE.group (rePlus reNotQuote), reQuote,
  reStar reNotGt,
  reLit "></script>" ]

/-- `INLINE_SCRIPT_REGEX` (flags `gi`), transcribed from
`/<script(?![^>]*type\s*=\s*["']module["'])(?![^>]*\ssrc\s*=)[^>]*>([\s\S]*?)<\/script>/gi`. -/
def inlineScriptRE : RE := reCat [
  reLit "<script",
  RE.negLook (reCat [reStar reNotGt, reLit "type", reStar reWs, RE.chr '=',
    reStar reWs, reQuote, reLit "module", reQuote]),
  RE.negLook (reCat [reStar reNotGt, reWs, reLit "src", reStar reWs, RE.chr '=']),
  reStar reNotGt,
  RE.chr '>',
  RE.group (reStarL reAny),
  reLit "</script>" ]

/-- `/<script\s*/` (no flags), used twice in `writeBundle`. -/
def scriptOpenRE : RE := reCat [reLit "<script", reStar reWs]

/-- `/>[\s\S]*<\/script>$/` (no flags), used for inline scripts in
`writeBundle`. -/
def gtToEndRE : RE := reCat [RE.chr '>', reStar reAny, reLit "</script>", RE.eol]

/-- `/src\s*=\s*["'][^"']*["']/gi`, used for external scripts in
`writeBundle`. -/
def srcAttrRE : RE := reCat [reLit "src", reStar reWs, RE.chr '=', reStar reWs,
  reQuote, reStar reNotQuote, reQuote]

/-- `/\s*><\/script>$/` (no flags), used for external scripts in
`writeBundle`. -/
def trailingCloseRE : RE := reCat [reStar reWs, reLit "></script>", RE.eol]

/-- Matcher fuel: comfortably larger than the number of recursive matcher
steps any of the patterns above can take on input `s` (their backtracking is
at worst quadratic in `s.length`, with small pattern-size factors). -/
def bigFuel (s : List Char) : Nat := (s.length + 64) * (s.length + 64) * 16

/-- Run the matcher at the start of `s`; return the unconsumed rest and the
capture of group 1 on success. -/
def reMatch (ci : Bool) (re : RE) (fuel : Nat) (s : List Char) :
    Option (List Char × Option (List Char)) :=
  mrun ci fuel re s none (fun s' cap => some (s', cap))

/-- Leftmost match search starting at offset `i` into the original input
(JavaScript scanning).  Returns `(start index, matched text, capture, rest)`. -/
def reFindFrom (ci : Bool) (re : RE) (fuel : Nat) :
    List Char → Nat → Option (Nat × List Char × Option (List Char) × List Char)
  | s, i =>
    match reMatch ci re fuel s with
    | some (rest, cap) => some (i, s.take (s.length - rest.length), cap, rest)
    | none =>
      match s with
      | [] => none
      | _ :: t => reFindFrom ci re fuel t (i + 1)

/-- The `while ((match = regex.exec(html)) !== null)` loop on a `g` regex:
successive non-overlapping leftmost matches, each search resuming at the end
of the previous match (`lastIndex`).  Returns `(start index, matched text,
capture)` triples.  `count` is a structural bound (one match consumes at least
one character, so `s.length + 1` iterations always suffice). -/
def reExecAll (ci : Bool) (re : RE) (fuel : Nat) :
    Nat → List Char → Nat → List (Nat × List Char × Option (List Char))
  | 0, _, _ => []
  | count + 1, s, base =>
    match reFindFrom ci re fuel s 0 with
    | none => []
    | some (i, m, cap, rest) =>
      if m.isEmpty then [(base + i, m, cap)]
      else (base + i, m, cap) :: reExecAll ci re fuel count rest (base + i + m.length)

/-- `str.replace(re, '')` for a non-global regex: delete the leftmost match
(every regex `replace` in the source has `''` as replacement). -/
def reDeleteFirst (ci : Bool) (re : RE) (s : List Char) : List Char :=
  match reFindFrom ci re (bigFuel s) s 0 with
  | none => s
  | some (i, m, _, _) => s.take i ++ s.drop (i + m.length)

/-- `str.replace(re, '')` for a global regex: delete every match,
left to right. -/
def reDeleteAll (ci : Bool) (re : RE) : Nat → List Char → List Char
  | 0, s => s
  | count + 1, s =>
    match reFindFrom ci re (bigFuel s) s 0 with
    | none => s
    | some (i, m, _, rest) =>
      if m.isEmpty then s
      else s.take i ++ reDeleteAll ci re count rest

/-! ## String helpers used by the source (JavaScript built-ins) -/

/-- `String.prototype.startsWith`, computed on the character list (so that it
evaluates by kernel reduction; extensionally this is `String.startsWith`). -/
def strStartsWith (s pre : String) : Bool := pre.data.isPrefixOf s.data

/-- `String.prototype.trim()` on the ASCII whitespace set. -/
def jsTrim (s : List Char) : List Char :=
  ((s.dropWhile (fun c => wsChars.contains c)).reverse.dropWhile
    (fun c => wsChars.contains c)).reverse

/-- Index of the first occurrence of `pat` in `hay` (the search
`String.prototype.replace` performs when given a string pattern). -/
def firstOccurAux (pat : List Char) : List Char → Option Nat
  | [] => if pat.isPrefixOf [] then some 0 else none
  | a :: t =>
    if pat.isPrefixOf (a :: t) then some 0
    else (firstOccurAux pat t).map (· + 1)

/-- Expansion of the special `$` patterns in a string replacement
(ECMAScript `GetSubstitution` with a string pattern, so there are no capture
groups): `$$` is `$`, `$&` the matched text, `$` + backquote the text before
the match, `$'` the text after it; any other `$` is literal. -/
def expandDollar (matched pre post : List Char) : List Char → List Char
  | [] => []
  | c :: rest =>
    if c = '$' then
      match rest with
      | [] => ['$']
      | c2 :: rest2 =>
        if c2 = '$' then '$' :: expandDollar matched pre post rest2
        else if c2 = '&' then matched ++ expandDollar matched pre post rest2
        else if c2 = Char.ofNat 96 then pre ++ expandDollar matched pre post rest2
        else if c2 = '\'' then post ++ expandDollar matched pre post rest2
        else '$' :: expandDollar matched pre post (c2 :: rest2)
    else c :: expandDollar matched pre post rest

/-- `hay.replace(pat, repl)` with a *string* pattern: replace only the first
occurrence, expanding `$` patterns in `repl`. -/
def jsReplaceString (hay pat repl : List Char) : List Char :=
  match firstOccurAux pat hay with
  | none => hay
  | some i =>
    let pre := hay.take i
    let post := hay.drop (i + pat.length)
    pre ++ expandDollar pat pre post repl ++ post

/-! ## File system and paths -/

/-- The file system visible to the plugin: an association list from absolute
path to file content.  `readFileSync` is a lookup (`none` = the call throws),
`writeFileSync` replaces the entry, `unlinkSync` removes it (failing on the
paths listed in a `locked` set, standing for OS-level deletion failures). -/
abbrev FS := List (String × String)

/-- `readFileSync(k, 'utf-8')`; `none` models a thrown exception. -/
def fsLookup (fs : FS) (k : String) : Option String :=
  (fs.find? (fun e => e.1 == k)).map Prod.snd

/-- `writeFileSync(k, v)`. -/
def fsWrite (fs : FS) (k v : String) : FS :=
  (k, v) :: fs.filter (fun e => e.1 != k)

/-- `unlinkSync(k)` when it succeeds. -/
def fsRemove (fs : FS) (k : String) : FS :=
  fs.filter (fun e => e.1 != k)

/-- `unlinkSync(k)` including failure: deleting a path in `locked` throws
(`none`), e.g. for permission errors. -/
def fsUnlink (fs : FS) (locked : List String) (k : String) : Option FS :=
  if locked.contains k then none else some (fsRemove fs k)

/-- `path.resolve(cwd, parts...)` restricted to the shapes the plugin
produces: a part starting with `/` restarts resolution, otherwise parts are
joined with `/`.  (`.`/`..` normalisation is not modelled; no input below
contains dot segments.) -/
def pathResolve (cwd : String) (parts : List String) : String :=
  parts.foldl (fun acc p => if strStartsWith p "/" then p else acc ++ "/" ++ p) cwd

/-- `getDistPath` from the source: `path.resolve(process.cwd(), 'dist', file)`
with the working directory made explicit. -/
def getDistPath (cwd file : String) : String := pathResolve cwd ["dist", file]

/-- `getSrcPath` from the source: `path.resolve(process.cwd(), file)`. -/
def getSrcPath (cwd file : String) : String := pathResolve cwd [file]

/-! ## Data model -/

/-- One entry of the source's `scriptData` array (all fields of the inline
record type, plus the dynamically attached `virtualId`).  TypeScript optional
fields become `Option`; `isInline` is plain `Bool` because every constructor
site in `findNonModuleScripts` sets it. -/
structure ScriptData where
  original : String
  src : Option String := none
  fullPath : Option String := none
  content : Option String := none
  chunkId : Option String := none
  minifiedContent : Option String := none
  fileName : Option String := none
  virtualId : Option String := none
  isInline : Bool := false
  deriving Repr, DecidableEq

/-- `isLocalScript` from the source. -/
def isLocalScript (src : String) : Bool :=
  !strStartsWith src "http://" && !strStartsWith src "https://" &&
    !strStartsWith src "//"

/-- `src.startsWith('/') ? src.slice(1) : src` from `findNonModuleScripts`. -/
def cleanSrcOf (src : String) : String :=
  if strStartsWith src "/" then src.drop 1 else src

/-- The body of the `SCRIPT_WITH_SRC_REGEX` loop in `findNonModuleScripts`:
from one `exec` result (match start kept for specification purposes, full
match, captured `src`), either a descriptor or nothing (remote scripts are
skipped). -/
def mkSrcScript (cwd : String) (t : Nat × List Char × Option (List Char)) :
    Option (Nat × ScriptData) :=
  let src := String.mk (t.2.2.getD [])
  if isLocalScript src then
    some (t.1, { original := String.mk t.2.1, src := some src,
                 fullPath := some (getSrcPath cwd (cleanSrcOf src)),
                 isInline := false })
  else none

/-- The body of the `INLINE_SCRIPT_REGEX` loop in `findNonModuleScripts`:
the captured body is trimmed and empty scripts are skipped. -/
def mkInlineScript (t : Nat × List Char × Option (List Char)) :
    Option (Nat × ScriptData) :=
  let content := String.mk (jsTrim (t.2.2.getD []))
  if content.isEmpty then none
  else some (t.1, { original := String.mk t.2.1, content := some content,
                    isInline := true })

/-- `findNonModuleScripts`, instrumented with the match start index of every
descriptor (`exec` computes it as `match.index`; the source discards it).
The two `exec` loops run in source order: first every `src` script, then every
inline script. -/
def findScriptsPos (cwd : String) (html : String) : List (Nat × ScriptData) :=
  let h := html.data
  let fuel := bigFuel h
  (reExecAll true scriptWithSrcRE fuel (h.length + 1) h 0).filterMap (mkSrcScript cwd)
    ++ (reExecAll true inlineScriptRE fuel (h.length + 1) h 0).filterMap mkInlineScript

/-- `findNonModuleScripts` from the source. -/
def findNonModuleScripts (cwd : String) (html : String) : List ScriptData :=
  (findScriptsPos cwd html).map Prod.snd

/-! ## buildStart (direct mode, `shouldMinify = false`) -/

/-- The per-script branch of the `buildStart` loop with minification off:
inline scripts copy `content` into `minifiedContent`; external scripts read
the file at `fullPath` (a failing read is caught and leaves the field
unset). -/
def resolveDirect (fs : FS) (s : ScriptData) : ScriptData :=
  if s.isInline then { s with minifiedContent := s.content }
  else
    match s.fullPath with
    | some p =>
      match fsLookup fs p with
      | some scriptContent => { s with minifiedContent := some scriptContent }
      | none => s
    | none => s

/-- The paths passed to `readFileSync` by the direct-mode `buildStart` loop:
one read per external descriptor, none for inline descriptors. -/
def directReadLog (scripts : List ScriptData) : List String :=
  scripts.filterMap (fun s => if s.isInline then none else s.fullPath)

/-- `buildStart` with minification off: reset `scriptData`, read the HTML at
`getSrcPath(htmlPath)` (an unreadable file is caught, leaving `scriptData`
empty), discover, then resolve each descriptor directly. -/
def buildStartDirect (cwd : String) (fs : FS) (htmlPath : String) :
    List ScriptData :=
  match fsLookup fs (getSrcPath cwd htmlPath) with
  | none => []
  | some htmlContent => (findNonModuleScripts cwd htmlContent).map (resolveDirect fs)

/-! ## writeBundle: HTML rewriting -/

/-- Truthiness of `script.minifiedContent` in `if (script.minifiedContent)`:
`undefined` and the empty string are falsy. -/
def isTruthy : Option String → Bool
  | some s => !s.isEmpty
  | none => false

/-- The inline-script attribute extraction in `writeBundle`:
`original.replace(/<script\s*/, '').replace(/>[\s\S]*<\/script>$/, '')`. -/
def extractAttrsInline (original : String) : String :=
  String.mk (reDeleteFirst false gtToEndRE
    (reDeleteFirst false scriptOpenRE original.data))

/-- The external-script attribute extraction in `writeBundle`:
`original.replace(/src\s*=\s*["'][^"']*["']/gi, '').replace(/<script\s*/, '')
.replace(/\s*><\/script>$/, '')`. -/
def extractAttrsSrc (original : String) : String :=
  let step1 := reDeleteAll true srcAttrRE (original.data.length + 1) original.data
  String.mk (reDeleteFirst false trailingCloseRE
    (reDeleteFirst false scriptOpenRE step1))

/-- The replacement tag built by `writeBundle` for a descriptor with content
`mc`: inline scripts re-attach the trimmed attributes behind a space,
external scripts re-attach the raw attribute remainder with no separator. -/
def buildReplacement (s : ScriptData) (mc : String) : String :=
  if s.isInline then
    let attributes := extractAttrsInline s.original
    let t := String.mk (jsTrim attributes.data)
    let attributesStr := if t.isEmpty then "" else " " ++ t
    "<script" ++ attributesStr ++ ">" ++ mc ++ "</script>"
  else
    let attributes := extractAttrsSrc s.original
    "<script" ++ attributes ++ ">" ++ mc ++ "</script>"

/-- One iteration of the `writeBundle` replacement loop:
descriptors with falsy `minifiedContent` are skipped, otherwise
`htmlContent = htmlContent.replace(script.original, replacement)`. -/
def rewriteStep (htmlContent : String) (s : ScriptData) : String :=
  if isTruthy s.minifiedContent then
    let mc := s.minifiedContent.getD ""
    String.mk (jsReplaceString htmlContent.data s.original.data
      (buildReplacement s mc).data)
  else htmlContent

/-- The whole `writeBundle` replacement loop. -/
def rewriteHtml (htmlContent : String) (scripts : List ScriptData) : String :=
  scripts.foldl rewriteStep htmlContent

/-- The tail of `writeBundle` (both modes): read `getDistPath('index.html')`
— this read is *not* guarded by `try`, so a missing file aborts the build
(`none`) — rewrite, and write the result back to the same path. -/
def rewritePhase (cwd : String) (scripts : List ScriptData) (fs : FS) :
    Option FS :=
  match fsLookup fs (getDistPath cwd "index.html") with
  | none => none
  | some htmlContent =>
    some (fsWrite fs (getDistPath cwd "index.html") (rewriteHtml htmlContent scripts))

/-- The whole direct-mode pipeline (`minify` off): `buildStart` discovery and
resolution against the source HTML named by the `htmlPath` option, then the
`writeBundle` rewrite of `dist/index.html`. -/
def runBuildDirect (cwd htmlPath : String) (fs : FS) : Option FS :=
  rewritePhase cwd (buildStartDirect cwd fs htmlPath) fs

/-! ## writeBundle: minified-mode collection and cleanup -/

/-- The per-script block of `writeBundle` in minified mode: for a descriptor
with a `fileName`, read the emitted file at `getDistPath(fileName)`, delete
it, then store the content in `minifiedContent`.  All three statements sit in
one `try`: a failing read leaves everything unchanged, and a failing delete
(modelled by `locked`) is caught *after* the file was read but *before*
`minifiedContent` was assigned, so the descriptor stays unresolved and the
file stays on disk. -/
def collectMinified (cwd : String) (locked : List String) (fs : FS)
    (s : ScriptData) : FS × ScriptData :=
  match s.fileName with
  | none => (fs, s)
  | some fn =>
    let filePath := getDistPath cwd fn
    match fsLookup fs filePath with
    | none => (fs, s)
    | some minifiedContent =>
      match fsUnlink fs locked filePath with
      | none => (fs, s)
      | some fs' => (fs', { s with minifiedContent := some minifiedContent })

/-! ## Configuration and the `load` hook -/

/-- The recognised plugin options, from
`VitePluginInlineNonModuleScriptsOptions`: `htmlPath?: string` and
`minify?: boolean`. -/
structure VitePluginInlineNonModuleScriptsOptions where
  htmlPath : Option String := none
  minify : Option Bool := none
  deriving Repr, DecidableEq

/-- The type of the `minify` option: `boolean`, or absent. -/
abbrev MinifyOption := Option Bool

/-- The possible values of Vite's `build.minify` setting
(`boolean | 'esbuild' | 'terser'`). -/
inductive ViteMinifySetting where
  | off | on | esbuild | terser
  deriving Repr, DecidableEq

/-- `configResolved`: `shouldMinify = minifyOption !== undefined ?
minifyOption : viteMinify !== false`. -/
def shouldMinifyOf (minifyOption : MinifyOption)
    (viteMinify : ViteMinifySetting) : Bool :=
  match minifyOption with
  | some b => b
  | none => viteMinify != ViteMinifySetting.off

/-- The virtual module namespace `'\0non-module-script:'`. -/
def virtualModulePref : String := "\x00non-module-script:"

/-- What the `load` hook evaluates to: not a module of this plugin (`null`),
script code, or a thrown `readFileSync` error (the file branch of `load` is
not guarded by `try`). -/
inductive LoadResult where
  | notOurs
  | code (s : String)
  | ioError
  deriving Repr, DecidableEq

/-- `id.includes('inline-script-')`. -/
def hasInlineMarker (id : String) : Bool :=
  (firstOccurAux "inline-script-".data id.data).isSome

/-- The `load` hook: for a virtual id carrying the inline marker, return the
matching descriptor's `content` (or `''`); for any other virtual id, read the
file at the path after the namespace; otherwise `null`.  No transformation of
any kind is applied to the returned code. -/
def loadHook (fs : FS) (scripts : List ScriptData) (id : String) : LoadResult :=
  if strStartsWith id virtualModulePref then
    if hasInlineMarker id then
      .code ((((scripts.find? (fun s => s.virtualId == some id)).bind
        (fun s => s.content)).getD ""))
    else
      match fsLookup fs (id.drop virtualModulePref.length) with
      | some c => .code c
      | none => .ioError
  else .notOurs

/-! ## Supporting lemmas -/

theorem rewriteStep_of_falsy {s : ScriptData} (html : String)
    (h : isTruthy s.minifiedContent = false) : rewriteStep html s = html := by
  simp [rewriteStep, h]

theorem rewriteHtml_filter (html : String) (scripts : List ScriptData) :
    rewriteHtml html scripts =
      rewriteHtml html (scripts.filter (fun t => isTruthy t.minifiedContent)) := by
  induction scripts generalizing html with
  | nil => rfl
  | cons s t ih =>
    by_cases h : isTruthy s.minifiedContent
    · simp only [rewriteHtml, List.foldl_cons, List.filter_cons, h, if_pos]
      exact ih (rewriteStep html s)
    · have hs : rewriteStep html s = html := by simp [rewriteStep, h]
      simp only [rewriteHtml, List.foldl_cons, List.filter_cons, h, hs]
      exact ih html

theorem find?_filter_ne (fs : FS) (k k' : String) (h : k' ≠ k) :
    (fs.filter (fun e => e.1 != k)).find? (fun e => e.1 == k') =
      fs.find? (fun e => e.1 == k') := by
  induction fs with
  | nil => rfl
  | cons e t ih =>
    by_cases he : e.1 = k
    · have h1 : (e.1 != k) = false := by simp [bne, he]
      have h2 : (e.1 == k') = false := by
        simp only [beq_eq_false_iff_ne, ne_eq, he]
        exact fun hk => h hk.symm
      simp [List.filter_cons, h1, List.find?_cons, h2, ih]
    · have h1 : (e.1 != k) = true := by simp [bne, he]
      simp only [List.filter_cons, h1, if_pos, List.find?_cons]
      cases hek : (e.1 == k') <;> simp [hek, ih]

theorem fsLookup_fsWrite (fs : FS) (k v k' : String) :
    fsLookup (fsWrite fs k v) k' = if k' = k then some v else fsLookup fs k' := by
  by_cases h : k' = k
  · subst h
    simp [fsLookup, fsWrite, List.find?_cons]
  · have hkk : (k == k') = false := by
      simp only [beq_eq_false_iff_ne, ne_eq]
      exact fun hk => h hk.symm
    simp [fsLookup, fsWrite, List.find?_cons, hkk, if_neg h, find?_filter_ne fs k k' h]

theorem fsLookup_fsRemove (fs : FS) (k k' : String) :
    fsLookup (fsRemove fs k) k' = if k' = k then none else fsLookup fs k' := by
  by_cases h : k' = k
  · subst h
    simp only [fsLookup, fsRemove, if_pos rfl]
    induction fs with
    | nil => rfl
    | cons e t ih =>
      by_cases he : e.1 = k'
      · have h1 : (e.1 != k') = false := by simp [bne, he]
        simp [List.filter_cons, h1, ih]
      · have h1 : (e.1 != k') = true := by simp [bne, he]
        have h2 : (e.1 == k') = false := by simp [he]
        simp [List.filter_cons, h1, List.find?_cons, h2, ih]
  · simp [fsLookup, fsRemove, if_neg h, find?_filter_ne fs k k' h]

theorem mkSrcScript_shape {cwd : String} {t : Nat × List Char × Option (List Char)}
    {e : Nat × ScriptData} (h : mkSrcScript cwd t = some e) :
    e.1 = t.1 ∧ e.2.isInline = false ∧ e.2.minifiedContent = none ∧
      e.2.content = none ∧ e.2.fileName = none ∧
      ∃ src, e.2.src = some src ∧ isLocalScript src = true ∧
        e.2.fullPath = some (getSrcPath cwd (cleanSrcOf src)) := by
  unfold mkSrcScript at h
  by_cases hl : isLocalScript (String.mk (t.2.2.getD [])) = true
  · simp only [hl, if_pos] at h
    cases h
    exact ⟨rfl, rfl, rfl, rfl, rfl, String.mk (t.2.2.getD []), rfl, hl, rfl⟩
  · simp only [if_neg hl] at h
    exact absurd h (by simp_all)

theorem mkInlineScript_shape {t : Nat × List Char × Option (List Char)}
    {e : Nat × ScriptData} (h : mkInlineScript t = some e) :
    e.1 = t.1 ∧ e.2.isInline = true ∧ e.2.minifiedContent = none ∧
      e.2.fullPath = none ∧ e.2.fileName = none ∧
      ∃ c, e.2.content = some c ∧ c.isEmpty = false := by
  unfold mkInlineScript at h
  by_cases he : (String.mk (jsTrim (t.2.2.getD []))).isEmpty = true
  · simp only [he, if_pos] at h
    exact absurd h (by simp_all)
  · simp only [if_neg he] at h
    cases h
    exact ⟨rfl, rfl, rfl, rfl, rfl, String.mk (jsTrim (t.2.2.getD [])), rfl,
      Bool.not_eq_true _ ▸ he⟩

/-- Every descriptor produced by discovery is either an external-file
descriptor with a local `src` and a resolved `fullPath`, or an inline
descriptor with non-empty trimmed content; in both cases `minifiedContent`
and `fileName` start out unset. -/
theorem mem_findNonModuleScripts {cwd html : String} {s : ScriptData}
    (hs : s ∈ findNonModuleScripts cwd html) :
    (s.isInline = false ∧ s.minifiedContent = none ∧ s.content = none ∧
      s.fileName = none ∧
      ∃ src, s.src = some src ∧ isLocalScript src = true ∧
        s.fullPath = some (getSrcPath cwd (cleanSrcOf src)))
    ∨ (s.isInline = true ∧ s.minifiedContent = none ∧ s.fullPath = none ∧
        s.fileName = none ∧ ∃ c, s.content = some c ∧ c.isEmpty = false) := by
  simp only [findNonModuleScripts, List.mem_map] at hs
  obtain ⟨e, he, rfl⟩ := hs
  simp only [findScriptsPos, List.mem_append, List.mem_filterMap] at he
  rcases he with ⟨t, _, ht⟩ | ⟨t, _, ht⟩
  · obtain ⟨_, h1, h2, h3, h4, src, h5, h6, h7⟩ := mkSrcScript_shape ht
    exact Or.inl ⟨h1, h2, h3, h4, src, h5, h6, h7⟩
  · obtain ⟨_, h1, h2, h3, h4, c, h5, h6⟩ := mkInlineScript_shape ht
    exact Or.inr ⟨h1, h2, h3, h4, c, h5, h6⟩

/-- Every element of a `reExecAll` run starts at or after `base`. -/
theorem reExecAll_base_le {ci : Bool} {re : RE} {fuel : Nat} :
    ∀ {count : Nat} {s : List Char} {base : Nat}
      {x : Nat × List Char × Option (List Char)},
      x ∈ reExecAll ci re fuel count s base → base ≤ x.1 := by
  intro count
  induction count with
  | zero => intro s base x hx; simp [reExecAll] at hx
  | succ n ih =>
    intro s base x hx
    simp only [reExecAll] at hx
    cases hf : reFindFrom ci re fuel s 0 with
    | none => simp [hf] at hx
    | some q =>
      obtain ⟨i, m, cap, rest⟩ := q
      simp only [hf] at hx
      by_cases hm : m.isEmpty = true
      · simp only [hm, if_pos, List.mem_singleton] at hx
        subst hx; exact Nat.le_add_right _ _
      · simp only [hm, Bool.false_eq_true, if_neg, if_false, List.mem_cons] at hx
        rcases hx with rfl | hx
        · exact Nat.le_add_right _ _
        · exact Nat.le_trans (Nat.le_add_right _ _)
            (Nat.le_trans (Nat.le_add_right _ _) (ih hx))

/-- Successive `exec` matches of a `g` regex start at strictly increasing
positions. -/
theorem reExecAll_pairwise {ci : Bool} {re : RE} {fuel : Nat} :
    ∀ {count : Nat} {s : List Char} {base : Nat},
      List.Pairwise (fun a b => a.1 < b.1) (reExecAll ci re fuel count s base) := by
  intro count
  induction count with
  | zero => intro s base; simp [reExecAll]
  | succ n ih =>
    intro s base
    simp only [reExecAll]
    cases hf : reFindFrom ci re fuel s 0 with
    | none => simp
    | some q =>
      obtain ⟨i, m, cap, rest⟩ := q
      by_cases hm : m.isEmpty = true
      · simp [hm]
      · simp only [hm, Bool.false_eq_true, if_neg, if_false]
        refine List.Pairwise.cons (fun x hx => ?_) ih
        have h1 : base + i + m.length ≤ x.1 := reExecAll_base_le hx
        have h2 : 0 < m.length := by
          cases m with
          | nil => simp [List.isEmpty] at hm
          | cons _ _ => simp
        omega

theorem pairwise_fst_filterMap {A B : Type} {f : Nat × A → Option (Nat × B)}
    (hf : ∀ t u, f t = some u → u.1 = t.1) :
    ∀ {l : List (Nat × A)}, List.Pairwise (fun a b => a.1 < b.1) l →
      List.Pairwise (fun a b => a.1 < b.1) (l.filterMap f) := by
  intro l hl
  induction hl with
  | nil => simp
  | @cons a t ha _ ih =>
    simp only [List.filterMap_cons]
    cases hfa : f a with
    | none => exact ih
    | some b =>
      refine List.Pairwise.cons (fun y hy => ?_) ih
      obtain ⟨x, hx, hxy⟩ := List.mem_filterMap.mp hy
      rw [hf a b hfa, hf x y hxy]
      exact ha x hx

/-- If the string search fails, the pattern occurs nowhere. -/
theorem firstOccurAux_none {pat : List Char} :
    ∀ {hay : List Char}, firstOccurAux pat hay = none →
      ∀ j, pat.isPrefixOf (hay.drop j) = false := by
  intro hay
  induction hay with
  | nil =>
    intro h j
    simp only [firstOccurAux] at h
    cases hp : pat.isPrefixOf ([] : List Char) with
    | true => simp [hp] at h
    | false => simpa using hp
  | cons a t ih =>
    intro h j
    simp only [firstOccurAux] at h
    cases hp : pat.isPrefixOf (a :: t) with
    | true => simp [hp] at h
    | false =>
      simp only [hp, Bool.false_eq_true, if_neg, if_false, Option.map_eq_none'] at h
      cases j with
      | zero => simpa using hp
      | succ j' => simpa using ih h j'

/-- If the string search returns `i`, the pattern occurs at `i` and nowhere
earlier. -/
theorem firstOccurAux_some {pat : List Char} :
    ∀ {hay : List Char} {i : Nat}, firstOccurAux pat hay = some i →
      pat.isPrefixOf (hay.drop i) = true ∧
        ∀ j < i, pat.isPrefixOf (hay.drop j) = false := by
  intro hay
  induction hay with
  | nil =>
    intro i h
    simp only [firstOccurAux] at h
    cases hp : pat.isPrefixOf ([] : List Char) with
    | true =>
      simp only [hp, if_pos, Option.some.injEq] at h
      subst h
      exact ⟨hp, fun j hj => absurd hj (Nat.not_lt_zero j)⟩
    | false => simp [hp] at h
  | cons a t ih =>
    intro i h
    simp only [firstOccurAux] at h
    cases hp : pat.isPrefixOf (a :: t) with
    | true =>
      simp only [hp, if_pos, Option.some.injEq] at h
      subst h
      exact ⟨by simpa using hp, fun j hj => absurd hj (Nat.not_lt_zero j)⟩
    | false =>
      simp only [hp, Bool.false_eq_true, if_neg, if_false, Option.map_eq_some'] at h
      obtain ⟨i', hi', rfl⟩ := h
      obtain ⟨h1, h2⟩ := ih hi'
      refine ⟨by simpa using h1, fun j hj => ?_⟩
      cases j with
      | zero => simpa using hp
      | succ j' => simpa using h2 j' (Nat.lt_of_succ_lt_succ hj)

/-- A replacement string without `$` is inserted verbatim. -/
theorem expandDollar_of_no_dollar (matched pre post : List Char) :
    ∀ {repl : List Char}, '$' ∉ repl →
      expandDollar matched pre post repl = repl := by
  intro repl
  induction repl with
  | nil => intro _; rfl
  | cons c rest ih =>
    intro h
    have hc : c ≠ '$' := fun hc => h (hc ▸ List.mem_cons_self c rest)
    have hrest : '$' ∉ rest := fun hr => h (List.mem_cons_of_mem c hr)
    rw [expandDollar.eq_def]
    simp only [if_neg hc]
    exact congrArg (c :: ·) (ih hrest)

/-! ## Claim theorems -/

/-- Claim C1: a descriptor whose `resolvedContent` (`minifiedContent`) was
never populated causes no substitution — its iteration of the `writeBundle`
replacement loop is the identity, unresolved descriptors can be dropped from
the loop without changing the output, an all-unresolved registry leaves the
HTML untouched; a failing external-file read during direct resolution leaves
the descriptor unresolved instead of throwing; and the rewrite phase
completes for every descriptor list whenever `dist/index.html` is readable,
so no per-script failure aborts the build. -/
theorem claim_C1_fail_open (cwd : String) (fs : FS) (scripts : List ScriptData)
    (html : String) (s : ScriptData) :
    (isTruthy s.minifiedContent = false → rewriteStep html s = html)
    ∧ rewriteHtml html scripts =
        rewriteHtml html (scripts.filter (fun t => isTruthy t.minifiedContent))
    ∧ ((∀ t ∈ scripts, isTruthy t.minifiedContent = false) →
        rewriteHtml html scripts = html)
    ∧ (∀ p, s.isInline = false → s.fullPath = some p → s.minifiedContent = none →
        fsLookup fs p = none → (resolveDirect fs s).minifiedContent = none)
    ∧ (∀ h0, fsLookup fs (getDistPath cwd "index.html") = some h0 →
        (rewritePhase cwd scripts fs).isSome = true) := by
  refine ⟨fun h => rewriteStep_of_falsy html h, rewriteHtml_filter html scripts,
    ?_, ?_, ?_⟩
  · intro hall
    have hnil : scripts.filter (fun t => isTruthy t.minifiedContent) = [] := by
      rw [List.filter_eq_nil_iff]
      intro t ht
      simp [hall t ht]
    rw [rewriteHtml_filter html scripts, hnil]
    rfl
  · intro p hinl hfp hmc hlook
    simp [resolveDirect, hinl, hfp, hlook, hmc]
  · intro h0 hl
    simp [rewritePhase, hl]

/-- Witness for C1: each hypothesis of `claim_C1_fail_open` discharged on a
concrete unresolved descriptor and file system. -/
theorem claim_C1_fail_open_witness :
    rewriteStep "<p>t</p>" { original := "t" } = "<p>t</p>"
    ∧ rewriteHtml "<p>t</p>" [{ original := "t" }] = "<p>t</p>"
    ∧ (resolveDirect []
        { original := "t", fullPath := some "/proj/a.js", isInline := false
          }).minifiedContent = none
    ∧ (rewritePhase "/proj" [] [("/proj/dist/index.html", "<p></p>")]).isSome = true := by
  obtain ⟨h1, _, h3, h4, _⟩ := claim_C1_fail_open "/proj" []
    [{ original := "t" }] "<p>t</p>"
    { original := "t", fullPath := some "/proj/a.js", isInline := false }
  obtain ⟨_, _, _, _, h5⟩ := claim_C1_fail_open "/proj"
    [("/proj/dist/index.html", "<p></p>")] [] "<p></p>"
    { original := "t" }
  exact ⟨h1 (by decide), h3 (by decide), h4 "/proj/a.js" rfl rfl rfl (by decide),
    h5 "<p></p>" (by decide)⟩

/-- Claim C6: with minification off, resolution is verbatim — an inline
descriptor's `minifiedContent` becomes a copy of its stored raw content, an
external-file descriptor's `minifiedContent` becomes exactly the file system's
content at its `fullPath` (in particular the exact bytes when the read
succeeds, and unset when it fails), and direct-mode `buildStart` is exactly
discovery followed by this per-descriptor resolution. -/
theorem claim_C6_direct_fidelity (cwd htmlPath : String) (fs : FS)
    (html : String) (s : ScriptData) (hs : s ∈ findNonModuleScripts cwd html) :
    (s.isInline = true → (resolveDirect fs s).minifiedContent = s.content
        ∧ ∃ c, s.content = some c)
    ∧ (s.isInline = false → ∃ p, s.fullPath = some p
        ∧ (resolveDirect fs s).minifiedContent = fsLookup fs p)
    ∧ (∀ h0, fsLookup fs (getSrcPath cwd htmlPath) = some h0 →
        buildStartDirect cwd fs htmlPath
          = (findNonModuleScripts cwd h0).map (resolveDirect fs)) := by
  refine ⟨?_, ?_, ?_⟩
  · intro hin
    rcases mem_findNonModuleScripts hs with ⟨hin', _⟩ | ⟨_, _, _, _, c, hc, _⟩
    · exact absurd (hin'.symm.trans hin) (by decide)
    · exact ⟨by simp [resolveDirect, hin], c, hc⟩
  · intro hin
    rcases mem_findNonModuleScripts hs with
      ⟨_, hmc, _, _, src, _, _, hfp⟩ | ⟨hin', _⟩
    · refine ⟨getSrcPath cwd (cleanSrcOf src), hfp, ?_⟩
      cases hl : fsLookup fs (getSrcPath cwd (cleanSrcOf src)) <;>
        simp [resolveDirect, hin, hfp, hl, hmc]
    · exact absurd (hin'.symm.trans hin) (by decide)
  · intro h0 hh
    simp [buildStartDirect, hh]

/-- Witness for C6: `claim_C6_direct_fidelity` applied to the descriptor
discovered in a one-tag document, fully instantiated. -/
theorem claim_C6_direct_fidelity_witness :
    (resolveDirect [("/proj/a.js", "var x=1;")]
        { original := "<script src=\"/a.js\"></script>", src := some "/a.js",
          fullPath := some "/proj/a.js", isInline := false }).minifiedContent
      = fsLookup [("/proj/a.js", "var x=1;")] "/proj/a.js" := by
  have h := claim_C6_direct_fidelity "/proj" "index.html"
    [("/proj/a.js", "var x=1;")] "<script src=\"/a.js\"></script>"
    { original := "<script src=\"/a.js\"></script>", src := some "/a.js",
      fullPath := some "/proj/a.js", isInline := false } (by decide)
  obtain ⟨p, hp, hc⟩ := h.2.1 rfl
  have hp' : p = "/proj/a.js" := by
    have := hp.symm
    simpa using this
  exact hp' ▸ hc

/-- Claim C10: the rewrite phase reads and writes only the fixed file
`dist/index.html` under the working directory, for every descriptor list and
in particular for every `htmlPath` option value: every other path is
untouched, and the whole direct-mode pipeline writes the rewrite of
`dist/index.html`'s own content, the `htmlPath` option entering only through
the discovered descriptor list. -/
theorem claim_C10_rewrite_target (cwd htmlPath : String) (fs : FS)
    (scripts : List ScriptData) :
    (∀ fs', rewritePhase cwd scripts fs = some fs' →
        (∀ k, k ≠ getDistPath cwd "index.html" → fsLookup fs' k = fsLookup fs k)
        ∧ ∃ h0, fsLookup fs (getDistPath cwd "index.html") = some h0
            ∧ fsLookup fs' (getDistPath cwd "index.html")
                = some (rewriteHtml h0 scripts))
    ∧ (∀ h0, fsLookup fs (getDistPath cwd "index.html") = some h0 →
        runBuildDirect cwd htmlPath fs
          = some (fsWrite fs (getDistPath cwd "index.html")
              (rewriteHtml h0 (buildStartDirect cwd fs htmlPath)))) := by
  constructor
  · intro fs' hfs'
    cases hl : fsLookup fs (getDistPath cwd "index.html") with
    | none => simp [rewritePhase, hl] at hfs'
    | some h0 =>
      simp only [rewritePhase, hl, Option.some.injEq] at hfs'
      subst hfs'
      refine ⟨fun k hk => ?_, h0, rfl, ?_⟩
      · rw [fsLookup_fsWrite]
        simp [hk]
      · rw [fsLookup_fsWrite]
        simp
  · intro h0 hl
    simp [runBuildDirect, rewritePhase, hl]

/-- Witness for C10: `claim_C10_rewrite_target` applied to a concrete build
whose `htmlPath` option points away from `dist/index.html`. -/
theorem claim_C10_rewrite_target_witness :
    runBuildDirect "/proj" "src/page.html"
        [("/proj/src/page.html", "<p></p>"), ("/proj/dist/index.html", "<q></q>")]
      = some (fsWrite [("/proj/src/page.html", "<p></p>"), ("/proj/dist/index.html", "<q></q>")]
          (getDistPath "/proj" "index.html")
          (rewriteHtml "<q></q>"
            (buildStartDirect "/proj"
              [("/proj/src/page.html", "<p></p>"), ("/proj/dist/index.html", "<q></q>")]
              "src/page.html"))) := by
  exact (claim_C10_rewrite_target "/proj" "src/page.html"
    [("/proj/src/page.html", "<p></p>"), ("/proj/dist/index.html", "<q></q>")]
    []).2 "<q></q>" (by decide)

/-- Claim C2 counterexample: `<script defer src="/a.js"></script>` carries the
loading-order attribute `defer`, yet discovery accepts it (one descriptor) and
the direct-mode build rewrites it — to `<scriptdefer>var x=1;</script>`, the
`src` attribute removed and the remaining attribute text re-attached with no
separating space — so the tag is neither disqualified from the pipeline nor
byte-identical in the output. -/
theorem claim_C2_counterexample :
    (findNonModuleScripts "/proj" "<script defer src=\"/a.js\"></script>").length = 1
    ∧ (runBuildDirect "/proj" "index.html"
        [("/proj/index.html", "<script defer src=\"/a.js\"></script>"),
         ("/proj/dist/index.html", "<script defer src=\"/a.js\"></script>"),
         ("/proj/a.js", "var x=1;")]).map
          (fun fs' => fsLookup fs' "/proj/dist/index.html")
        = some (some "<scriptdefer>var x=1;</script>")
    ∧ "<scriptdefer>var x=1;</script>" ≠ "<script defer src=\"/a.js\"></script>" := by
  exact ⟨by decide, by decide, by decide⟩

/-- Claim C2 amended: there is no disallowed-attribute exclusion — the
discovery regex rejects only `type="module"` (and, for the external form,
remote sources), so a tag with `defer` (likewise `async`, `integrity`,
`crossorigin`) is discovered like any other, and the rewrite replaces it by
`<script` + the leftover attribute text (no leading space) + `>` + the
resolved content + `</script>`, for every non-empty resolved content. -/
theorem claim_C2_amended (c : String) (h1 : c.isEmpty = false)
    (h2 : '$' ∉ c.data) :
    findNonModuleScripts "/proj" "<script defer src=\"/a.js\"></script>"
      = [{ original := "<script defer src=\"/a.js\"></script>", src := some "/a.js",
           fullPath := some "/proj/a.js", isInline := false }]
    ∧ rewriteStep "<script defer src=\"/a.js\"></script>"
        { original := "<script defer src=\"/a.js\"></script>", src := some "/a.js",
          fullPath := some "/proj/a.js", minifiedContent := some c,
          isInline := false }
      = "<script" ++ "defer" ++ ">" ++ c ++ "</script>" := by
  constructor
  · decide
  · have ht : isTruthy (some c) = true := by simp [isTruthy, h1]
    rw [rewriteStep]
    simp only [ht, if_true]
    have hb : buildReplacement
        { original := "<script defer src=\"/a.js\"></script>", src := some "/a.js",
          fullPath := some "/proj/a.js", minifiedContent := some c,
          isInline := false } ((some c).getD "")
        = "<script" ++ "defer" ++ ">" ++ c ++ "</script>" := by
      rw [buildReplacement]
      simp only [if_neg (by decide : ¬ (false = true))]
      rw [show extractAttrsSrc "<script defer src=\"/a.js\"></script>" = "defer" from by decide]
      rfl
    rw [hb]
    have hocc : firstOccurAux "<script defer src=\"/a.js\"></script>".data
        "<script defer src=\"/a.js\"></script>".data = some 0 := by decide
    simp only [jsReplaceString, hocc]
    have hnd : '$' ∉ ("<script" ++ "defer" ++ ">" ++ c ++ "</script>" : String).data := by
      simp only [String.data_append, List.mem_append]
      rintro ((((hd | hd) | hd) | hd) | hd)
      · exact absurd hd (by decide)
      · exact absurd hd (by decide)
      · exact absurd hd (by decide)
      · exact h2 hd
      · exact absurd hd (by decide)
    rw [expandDollar_of_no_dollar _ _ _ hnd]
    rw [show ("<script defer src=\"/a.js\"></script>".data.drop
      (0 + "<script defer src=\"/a.js\"></script>".data.length)) = [] from by decide]
    simp only [List.take_zero, List.nil_append, List.append_nil]

/-- Witness for the C2 amended theorem at the concrete content
`var x=1;`. -/
theorem claim_C2_amended_witness :
    findNonModuleScripts "/proj" "<script defer src=\"/a.js\"></script>"
      = [{ original := "<script defer src=\"/a.js\"></script>", src := some "/a.js",
           fullPath := some "/proj/a.js", isInline := false }]
    ∧ rewriteStep "<script defer src=\"/a.js\"></script>"
        { original := "<script defer src=\"/a.js\"></script>", src := some "/a.js",
          fullPath := some "/proj/a.js", minifiedContent := some "var x=1;",
          isInline := false }
      = "<script" ++ "defer" ++ ">" ++ "var x=1;" ++ "</script>" :=
  claim_C2_amended "var x=1;" (by decide) (by decide)

/-- Claim C3 counterexample: `/style.css` does not end in a script-file
extension, yet the tag `<script src="/style.css"></script>` is discovered and
inlined with the css file's bytes, so the accepted-extension condition claimed
for scope does not exist and the tag is not byte-identical in the output. -/
theorem claim_C3_counterexample :
    (findNonModuleScripts "/proj" "<script src=\"/style.css\"></script>").length = 1
    ∧ (runBuildDirect "/proj" "index.html"
        [("/proj/index.html", "<script src=\"/style.css\"></script>"),
         ("/proj/dist/index.html", "<script src=\"/style.css\"></script>"),
         ("/proj/style.css", "p q")]).map
          (fun fs' => fsLookup fs' "/proj/dist/index.html")
        = some (some "<script>p q</script>")
    ∧ "<script>p q</script>" ≠ "<script src=\"/style.css\"></script>" := by
  exact ⟨by decide, by decide, by decide⟩

set_option maxRecDepth 100000 in
/-- Claim C3 amended: scope requires only the absence of `type="module"` and,
for the external-file form, a local source reference (not starting with
`http://`, `https://` or `//`); there is no extension requirement.  Every
external descriptor discovery produces has a local `src`, and on a document
holding a module tag, two remote tags and a `.css` tag, exactly the `.css`
tag is discovered and inlined while the other three stay byte-identical. -/
theorem claim_C3_amended (cwd html : String) (s : ScriptData)
    (hs : s ∈ findNonModuleScripts cwd html) :
    (s.isInline = false → ∃ src, s.src = some src ∧ isLocalScript src = true)
    ∧ (findNonModuleScripts "/proj"
        "<script type=\"module\" src=\"/m.js\"></script><script src=\"https://cdn.io/x.js\"></script><script src=\"//cdn.io/y.js\"></script><script src=\"/style.css\"></script>").map
          (fun t => t.original)
        = ["<script src=\"/style.css\"></script>"]
    ∧ (runBuildDirect "/proj" "index.html"
        [("/proj/index.html",
          "<script type=\"module\" src=\"/m.js\"></script><script src=\"https://cdn.io/x.js\"></script><script src=\"//cdn.io/y.js\"></script><script src=\"/style.css\"></script>"),
         ("/proj/dist/index.html",
          "<script type=\"module\" src=\"/m.js\"></script><script src=\"https://cdn.io/x.js\"></script><script src=\"//cdn.io/y.js\"></script><script src=\"/style.css\"></script>"),
         ("/proj/style.css", "p q")]).map
          (fun fs' => fsLookup fs' "/proj/dist/index.html")
        = some (some
          "<script type=\"module\" src=\"/m.js\"></script><script src=\"https://cdn.io/x.js\"></script><script src=\"//cdn.io/y.js\"></script><script>p q</script>") := by
  refine ⟨?_, by decide, by decide⟩
  intro hin
  rcases mem_findNonModuleScripts hs with
    ⟨_, _, _, _, src, hsrc, hloc, _⟩ | ⟨hin', _⟩
  · exact ⟨src, hsrc, hloc⟩
  · exact absurd (hin'.symm.trans hin) (by decide)

/-- Witness for the C3 amended theorem at the descriptor discovered from a
one-tag document. -/
theorem claim_C3_amended_witness :
    ∃ src, ({ original := "<script src=\"/style.css\"></script>",
              src := some "/style.css", fullPath := some "/proj/style.css",
              isInline := false } : ScriptData).src = some src
      ∧ isLocalScript src = true :=
  (claim_C3_amended "/proj" "<script src=\"/style.css\"></script>"
    { original := "<script src=\"/style.css\"></script>", src := some "/style.css",
      fullPath := some "/proj/style.css", isInline := false }
    (by decide)).1 rfl

/-- Claim C4 counterexample: two tags referencing `/shared.js` produce two
descriptors with the same identity (same original tag text, same file path) —
so identities are not unique and nothing collapses — and the direct-mode
resolution loop reads the shared file once per descriptor, i.e. twice. -/
theorem claim_C4_counterexample :
    ¬ List.Nodup ((findNonModuleScripts "/proj"
        "<script src=\"/shared.js\"></script><p><script src=\"/shared.js\"></script>").map
          (fun s => s.original))
    ∧ directReadLog (findNonModuleScripts "/proj"
        "<script src=\"/shared.js\"></script><p><script src=\"/shared.js\"></script>")
      = ["/proj/shared.js", "/proj/shared.js"] := by
  exact ⟨by decide, by decide⟩

/-- Claim C4 amended: discovery does not deduplicate — every matching tag
occurrence yields its own descriptor, so two tags referencing `/shared.js`
give two descriptors with equal identity, the shared file is read once per
occurrence (twice), and the build still succeeds with both occurrences
independently inlined with the same content. -/
theorem claim_C4_amended :
    (findNonModuleScripts "/proj"
        "<script src=\"/shared.js\"></script><p><script src=\"/shared.js\"></script>").map
          (fun s => (s.original, s.fullPath))
      = [("<script src=\"/shared.js\"></script>", some "/proj/shared.js"),
         ("<script src=\"/shared.js\"></script>", some "/proj/shared.js")]
    ∧ directReadLog (findNonModuleScripts "/proj"
        "<script src=\"/shared.js\"></script><p><script src=\"/shared.js\"></script>")
      = ["/proj/shared.js", "/proj/shared.js"]
    ∧ (runBuildDirect "/proj" "index.html"
        [("/proj/index.html",
          "<script src=\"/shared.js\"></script><p><script src=\"/shared.js\"></script>"),
         ("/proj/dist/index.html",
          "<script src=\"/shared.js\"></script><p><script src=\"/shared.js\"></script>"),
         ("/proj/shared.js", "var x=1")]).map
          (fun fs' => fsLookup fs' "/proj/dist/index.html")
        = some (some "<script>var x=1</script><p><script>var x=1</script>") := by
  exact ⟨by decide, by decide, by decide⟩

/-- Claim C5 counterexample: on a document whose inline tag (position 0)
precedes its external tag (position 24), discovery returns the external
descriptor first, so the descriptor sequence is not in first-to-last document
order. -/
theorem claim_C5_counterexample :
    (findScriptsPos "/proj" "<script>a1()</script><p><script src=\"/b.js\"></script>").map
        (fun e => (e.1, e.2.isInline))
      = [(24, false), (0, true)]
    ∧ ¬ List.Pairwise (fun a b => a.1 ≤ b.1)
        (findScriptsPos "/proj" "<script>a1()</script><p><script src=\"/b.js\"></script>") := by
  exact ⟨by decide, by decide⟩

/-- Claim C5 amended: discovery returns all external-file descriptors first
and all inline descriptors second (the two `exec` loops run in that order);
within each of the two blocks the descriptors are in strictly increasing
document position. -/
theorem claim_C5_amended (cwd html : String) :
    ∃ ex inl, findScriptsPos cwd html = ex ++ inl
      ∧ (∀ e ∈ ex, e.2.isInline = false)
      ∧ (∀ e ∈ inl, e.2.isInline = true)
      ∧ List.Pairwise (fun a b => a.1 < b.1) ex
      ∧ List.Pairwise (fun a b => a.1 < b.1) inl
      ∧ findNonModuleScripts cwd html = (ex ++ inl).map Prod.snd := by
  refine ⟨(reExecAll true scriptWithSrcRE (bigFuel html.data)
      (html.data.length + 1) html.data 0).filterMap (mkSrcScript cwd),
    (reExecAll true inlineScriptRE (bigFuel html.data)
      (html.data.length + 1) html.data 0).filterMap mkInlineScript,
    rfl, ?_, ?_, ?_, ?_, rfl⟩
  · intro e he
    obtain ⟨t, _, ht⟩ := List.mem_filterMap.mp he
    exact (mkSrcScript_shape ht).2.1
  · intro e he
    obtain ⟨t, _, ht⟩ := List.mem_filterMap.mp he
    exact (mkInlineScript_shape ht).2.1
  · exact pairwise_fst_filterMap (fun t u h => (mkSrcScript_shape h).1)
      reExecAll_pairwise
  · exact pairwise_fst_filterMap (fun t u h => (mkInlineScript_shape h).1)
      reExecAll_pairwise

/-- Claim C7 counterexample: two descriptors share the original tag text
`<script src="/a.js"></script>` and the resolved content itself contains that
tag text.  The second descriptor's `replace` then hits the first occurrence in
the *current* document — which lies inside the content the first descriptor
inserted — instead of the first remaining unmatched tag occurrence: the
output nests the replacement and still ends with the untouched second tag,
and differs from the output the claim's first-remaining-unmatched rule
predicts. -/
theorem claim_C7_counterexample :
    (runBuildDirect "/proj" "index.html"
        [("/proj/index.html",
          "<script src=\"/a.js\"></script><p><script src=\"/a.js\"></script>"),
         ("/proj/dist/index.html",
          "<script src=\"/a.js\"></script><p><script src=\"/a.js\"></script>"),
         ("/proj/a.js", "x=1; // <script src=\"/a.js\"></script>")]).map
          (fun fs' => fsLookup fs' "/proj/dist/index.html")
      = some (some
        "<script>x=1; // <script>x=1; // <script src=\"/a.js\"></script></script></script><p><script src=\"/a.js\"></script>")
    ∧ ("<script src=\"/a.js\"></script>".data.isSuffixOf
        "<script>x=1; // <script>x=1; // <script src=\"/a.js\"></script></script></script><p><script src=\"/a.js\"></script>".data)
      = true
    ∧ "<script>x=1; // <script>x=1; // <script src=\"/a.js\"></script></script></script><p><script src=\"/a.js\"></script>"
      ≠ "<script>x=1; // <script src=\"/a.js\"></script></script><p><script>x=1; // <script src=\"/a.js\"></script></script>" := by
  exact ⟨by decide, by decide, by decide⟩

/-- Claim C7 amended: each resolved descriptor substitutes at most one
occurrence of its original tag text — the first occurrence in the *current*
(partially rewritten) document, which is the first remaining unmatched one
unless earlier-inserted resolved content itself contains the tag text.
Formally: one loop iteration either leaves the document unchanged (no
occurrence anywhere), or splits it at the earliest occurrence and substitutes
exactly there. -/
theorem claim_C7_amended (html : String) (s : ScriptData)
    (h : isTruthy s.minifiedContent = true) :
    (rewriteStep html s = html
      ∧ ∀ j, s.original.data.isPrefixOf (html.data.drop j) = false)
    ∨ ∃ i, s.original.data.isPrefixOf (html.data.drop i) = true
        ∧ (∀ j < i, s.original.data.isPrefixOf (html.data.drop j) = false)
        ∧ (rewriteStep html s).data
            = html.data.take i
              ++ expandDollar s.original.data (html.data.take i)
                  (html.data.drop (i + s.original.data.length))
                  (buildReplacement s (s.minifiedContent.getD "")).data
              ++ html.data.drop (i + s.original.data.length) := by
  rw [rewriteStep]
  simp only [h, if_true]
  cases hocc : firstOccurAux s.original.data html.data with
  | none =>
    left
    refine ⟨?_, firstOccurAux_none hocc⟩
    rw [jsReplaceString, hocc]
  | some i =>
    right
    obtain ⟨hat, hbefore⟩ := firstOccurAux_some hocc
    refine ⟨i, hat, hbefore, ?_⟩
    rw [jsReplaceString, hocc]

/-- Witness for the C7 amended theorem on a concrete one-occurrence
document. -/
theorem claim_C7_amended_witness :
    (rewriteStep "<p>ab</p>"
        { original := "ab", minifiedContent := some "c", isInline := true }
      = "<p>ab</p>"
      ∧ ∀ j, ("ab" : String).data.isPrefixOf (("<p>ab</p>" : String).data.drop j) = false)
    ∨ ∃ i, ("ab" : String).data.isPrefixOf (("<p>ab</p>" : String).data.drop i) = true
        ∧ (∀ j < i, ("ab" : String).data.isPrefixOf (("<p>ab</p>" : String).data.drop j) = false)
        ∧ (rewriteStep "<p>ab</p>"
            { original := "ab", minifiedContent := some "c", isInline := true }).data
            = ("<p>ab</p>" : String).data.take i
              ++ expandDollar ("ab" : String).data (("<p>ab</p>" : String).data.take i)
                  (("<p>ab</p>" : String).data.drop (i + ("ab" : String).data.length))
                  (buildReplacement
                    { original := "ab", minifiedContent := some "c", isInline := true }
                    ((some "c").getD "")).data
              ++ ("<p>ab</p>" : String).data.drop (i + ("ab" : String).data.length) :=
  claim_C7_amended "<p>ab</p>"
    { original := "ab", minifiedContent := some "c", isInline := true } (by decide)

/-- Claim C8 counterexample: the `minify` option has type `boolean?`
(`MinifyOption = Option Bool`), a three-valued type, so no encoding of custom
minifier functions into it can distinguish distinct functions — the claimed
function-valued configuration does not exist. -/
theorem claim_C8_counterexample :
    ¬ ∃ e : (String → String) → MinifyOption, Function.Injective e := by
  rintro ⟨e, he⟩
  obtain ⟨x, y, hxy, hexy⟩ := Finite.exists_ne_map_eq_of_infinite
    (fun n : Nat => e (fun _ => String.mk (List.replicate n 'a')))
  apply hxy
  have hfun := he hexy
  have happ := congrArg String.data (congrFun hfun "")
  simpa using congrArg List.length happ

/-- Claim C8 amended: `minify` accepts only `false` and `true` (or is left
unset, in which case minification follows Vite's `build.minify !== false`);
and the plugin's `load` hook never applies any transformation — whatever code
it returns is the empty fallback, a descriptor's stored raw content, or a
file's content, verbatim. -/
theorem claim_C8_amended (fs : FS) (scripts : List ScriptData) (id : String)
    (vm : ViteMinifySetting) (b : Bool) :
    shouldMinifyOf (some b) vm = b
    ∧ (shouldMinifyOf none vm = true ↔ vm ≠ ViteMinifySetting.off)
    ∧ (∀ c, loadHook fs scripts id = .code c →
        c = "" ∨ (∃ s ∈ scripts, s.content = some c)
          ∨ ∃ p, fsLookup fs p = some c) := by
  refine ⟨rfl, ?_, ?_⟩
  · cases vm <;> simp [shouldMinifyOf]
  · intro c hc
    unfold loadHook at hc
    by_cases hpre : strStartsWith id virtualModulePref = true
    · rw [if_pos hpre] at hc
      by_cases hmark : hasInlineMarker id = true
      · rw [if_pos hmark] at hc
        have hx := (LoadResult.code.injEq _ _).mp hc
        cases hf : scripts.find? (fun s => s.virtualId == some id) with
        | none =>
          left
          rw [hf] at hx
          exact hx.symm
        | some s0 =>
          cases hco : s0.content with
          | none =>
            left
            rw [hf] at hx
            simp only [Option.some_bind, hco, Option.getD_none] at hx
            exact hx.symm
          | some cc =>
            right; left
            refine ⟨s0, List.mem_of_find?_eq_some hf, ?_⟩
            rw [hf] at hx
            simp only [Option.some_bind, hco, Option.getD_some] at hx
            rw [hco, hx]
      · rw [if_neg hmark] at hc
        cases hl : fsLookup fs (id.drop virtualModulePref.length) with
        | none => rw [hl] at hc; cases hc
        | some c' =>
          right; right
          refine ⟨id.drop virtualModulePref.length, ?_⟩
          rw [hl] at hc
          have := (LoadResult.code.injEq _ _).mp hc
          rw [hl, this]
    · rw [if_neg hpre] at hc
      cases hc

/-- Witness for the C8 amended theorem: the `load` hook returning a file's
content verbatim for a virtual id, with the option semantics at `true` /
`terser`. -/
theorem claim_C8_amended_witness :
    shouldMinifyOf (some true) ViteMinifySetting.terser = true
    ∧ ("" = "" ∨ (∃ s ∈ ([] : List ScriptData), s.content = some "")
        ∨ ∃ p, fsLookup [("/proj/a.js", "")] p = some "") := by
  have h := claim_C8_amended [("/proj/a.js", "")] []
    "\x00non-module-script:/proj/a.js" ViteMinifySetting.terser true
  exact ⟨h.1, h.2.2 "" (by decide)⟩

/-- Claim C9 counterexample: in the collection block of `writeBundle` the
`unlinkSync` call sits *between* the read and the assignment to
`minifiedContent`, all in one `try`.  On a file that can be read but not
deleted, the read succeeds yet the descriptor ends up unresolved and the file
stays in the output tree — contradicting both "deleted strictly after its
content has been copied into resolvedContent" and "no physical file
corresponding to a registered virtual unit remains". -/
theorem claim_C9_counterexample :
    collectMinified "/proj" ["/proj/dist/assets/a-123.js"]
        [("/proj/dist/assets/a-123.js", "var x=1;")]
        { original := "<script src=\"/a.js\"></script>",
          fileName := some "assets/a-123.js", isInline := false }
      = ([("/proj/dist/assets/a-123.js", "var x=1;")],
         { original := "<script src=\"/a.js\"></script>",
           fileName := some "assets/a-123.js", isInline := false })
    ∧ ¬ ((collectMinified "/proj" ["/proj/dist/assets/a-123.js"]
          [("/proj/dist/assets/a-123.js", "var x=1;")]
          { original := "<script src=\"/a.js\"></script>",
            fileName := some "assets/a-123.js", isInline := false }).2.minifiedContent
        = some "var x=1;")
    ∧ ¬ (fsLookup (collectMinified "/proj" ["/proj/dist/assets/a-123.js"]
          [("/proj/dist/assets/a-123.js", "var x=1;")]
          { original := "<script src=\"/a.js\"></script>",
            fileName := some "assets/a-123.js", isInline := false }).1
          "/proj/dist/assets/a-123.js"
        = none) := by
  exact ⟨by decide, by decide, by decide⟩

/-- Claim C9 amended: the deletion is attempted only after the emitted file
has been read (into a local), and `resolvedContent` is populated only after a
*successful* deletion: when the read fails nothing changes; when read and
deletion succeed the file is gone from the output tree and the content is
stored; when the deletion fails the failure is caught (the build continues)
but the file stays on disk and the descriptor stays unresolved. -/
theorem claim_C9_amended (cwd : String) (locked : List String) (fs : FS)
    (s : ScriptData) (fn : String) (hfn : s.fileName = some fn) :
    (fsLookup fs (getDistPath cwd fn) = none →
      collectMinified cwd locked fs s = (fs, s))
    ∧ (∀ c, fsLookup fs (getDistPath cwd fn) = some c →
        locked.contains (getDistPath cwd fn) = false →
        collectMinified cwd locked fs s
            = (fsRemove fs (getDistPath cwd fn),
               { s with minifiedContent := some c })
          ∧ fsLookup (fsRemove fs (getDistPath cwd fn)) (getDistPath cwd fn) = none)
    ∧ (∀ c, fsLookup fs (getDistPath cwd fn) = some c →
        locked.contains (getDistPath cwd fn) = true →
        collectMinified cwd locked fs s = (fs, s)) := by
  refine ⟨?_, ?_, ?_⟩
  · intro hl
    simp [collectMinified, hfn, hl]
  · intro c hl hlock
    have hnm : getDistPath cwd fn ∉ locked := by simpa using hlock
    constructor
    · simp [collectMinified, hfn, hl, fsUnlink, hnm]
    · rw [fsLookup_fsRemove]
      simp
  · intro c hl hlock
    have hm : getDistPath cwd fn ∈ locked := by simpa using hlock
    simp [collectMinified, hfn, hl, fsUnlink, hm]

/-- Witness for the C9 amended theorem: a successful read-delete-store run on
a concrete emitted file. -/
theorem claim_C9_amended_witness :
    collectMinified "/proj" [] [("/proj/dist/assets/a-123.js", "var x=1;")]
        { original := "<script src=\"/a.js\"></script>",
          fileName := some "assets/a-123.js", isInline := false }
      = (fsRemove [("/proj/dist/assets/a-123.js", "var x=1;")]
            (getDistPath "/proj" "assets/a-123.js"),
         { original := "<script src=\"/a.js\"></script>",
           fileName := some "assets/a-123.js", isInline := false,
           minifiedContent := some "var x=1;" })
    ∧ fsLookup (fsRemove [("/proj/dist/assets/a-123.js", "var x=1;")]
          (getDistPath "/proj" "assets/a-123.js"))
        (getDistPath "/proj" "assets/a-123.js") = none := by
  have h := (claim_C9_amended "/proj" [] [("/proj/dist/assets/a-123.js", "var x=1;")]
    { original := "<script src=\"/a.js\"></script>",
      fileName := some "assets/a-123.js", isInline := false }
    "assets/a-123.js" rfl).2.1 "var x=1;" (by decide) (by decide)
  exact h

end InlineNonModuleScripts

